import Mathlib

/-!
Shallow embedding of the ingredient-quantity scaling module of the
recipes-finder repository (source: `servingScaler.ts`): `parseQuantity`,
`toFraction`, `scaleIngredient` and `scaleRecipeServings`, together with
the record types they operate on (`shared/types.ts`).

Modelling conventions:
* JavaScript strings are modelled as `List Char`; only the ASCII behaviour
  of `trim`, `toLowerCase`, `\d`, `\s` and `[a-zA-Z]` is modelled, which
  covers every input the source and its tests exercise.
* JavaScript numbers are modelled as rationals extended with the
  non-finite values `Infinity`, `-Infinity` and `NaN` (`JSNum`).
  `parseFloat` is modelled faithfully up to IEEE-754 binary64 precision:
  its result is rounded to the nearest double (ties to even) by
  `roundDouble`, which is what makes huge decimal inputs inexact exactly
  as they are in the source.  The remaining arithmetic (`parseInt`
  captures feeding a division, the scale-factor division and
  multiplication) is kept exact: every branch decision taken in the
  source on such values has slack many orders of magnitude wider than
  double-precision error, so the exactness is invisible to the
  properties judged here (overflow of astronomically long digit strings
  to `Infinity` is likewise not modelled).
* The three regular expressions of the source are embedded as explicit
  scanners.  For these particular patterns greedy matching never
  backtracks (each `\d+` / `\s+` is followed by a token that cannot start
  with the same character class), so maximal-munch scanning at each start
  position, moving the start one character forward on failure, is exactly
  the JavaScript leftmost-match semantics.
-/

/-- Strings as lists of characters. -/
abbrev Str := List Char

/-- The character class of the JavaScript regex `\d`: the digits 0-9. -/
def isDig (c : Char) : Bool := 48 ≤ c.toNat && c.toNat ≤ 57

/-- The ASCII part of the JavaScript regex class `\s`, which is also the set
of characters removed by `String.prototype.trim`: space, tab, line feed,
carriage return, vertical tab and form feed. -/
def wsp (c : Char) : Bool :=
  c.toNat = 32 || c.toNat = 9 || c.toNat = 10 || c.toNat = 13 ||
    c.toNat = 11 || c.toNat = 12

/-- The character class of the JavaScript regex `[a-zA-Z]`. -/
def isAlphaChar (c : Char) : Bool :=
  (65 ≤ c.toNat && c.toNat ≤ 90) || (97 ≤ c.toNat && c.toNat ≤ 122)

/-- ASCII case folding of one character, as `String.prototype.toLowerCase`
acts on ASCII letters. -/
def charLower (c : Char) : Char :=
  if 65 ≤ c.toNat && c.toNat ≤ 90 then Char.ofNat (c.toNat + 32) else c

/-- `s.toLowerCase()` on the ASCII fragment. -/
def lowerStr (l : Str) : Str := l.map charLower

/-- `s.trim()`: drop leading and trailing whitespace. -/
def trimStr (l : Str) : Str :=
  ((l.dropWhile wsp).reverse.dropWhile wsp).reverse

/-- `parseInt` on a non-empty all-digit capture (the only shape the
scanners below produce). -/
def parseIntDigits (l : Str) : ℕ :=
  l.foldl (fun a c => 10 * a + (c.toNat - 48)) 0

/-- Decimal digits of a natural number; `fuel` bounds the recursion depth
structurally. -/
def natToDigitsAux : ℕ → ℕ → Str
  | 0, _ => []
  | fuel + 1, n =>
    if n < 10 then [Char.ofNat (48 + n)]
    else natToDigitsAux fuel (n / 10) ++ [Char.ofNat (48 + n % 10)]

/-- Decimal rendering of a natural number, as `Number.prototype.toString`
renders a non-negative integer. -/
def natToDigits (n : ℕ) : Str := natToDigitsAux (n + 1) n

/-- Decimal rendering of an integer. -/
def intToDigits (i : ℤ) : Str :=
  if i < 0 then '-' :: natToDigits i.natAbs else natToDigits i.toNat

/-- JavaScript numbers: an exact rational, or one of the non-finite
double-precision values. -/
inductive JSNum where
  | num (q : ℚ)
  | inf
  | negInf
  | nan
deriving DecidableEq

/-- JavaScript division `n / d` of two non-negative integers (the
numerator and denominator captured from a fraction pattern): division by
zero yields `Infinity`, and `0 / 0` yields `NaN`. -/
def jsDivNat (n d : ℕ) : JSNum :=
  if d = 0 then (if n = 0 then JSNum.nan else JSNum.inf)
  else JSNum.num ((n : ℚ) / (d : ℚ))

/-- JavaScript addition of the whole part of a mixed number to the value of
its fractional part. -/
def jsAddNat (w : ℕ) : JSNum → JSNum
  | JSNum.num q => JSNum.num ((w : ℚ) + q)
  | x => x

/-- JavaScript division of two finite numbers, with the IEEE conventions
for a zero divisor. -/
def jsDivQ (a b : ℚ) : JSNum :=
  if b = 0 then
    (if a = 0 then JSNum.nan else if 0 < a then JSNum.inf else JSNum.negInf)
  else JSNum.num (a / b)

/-- JavaScript multiplication on `JSNum`, with the IEEE conventions for
non-finite operands. -/
def jsMul : JSNum → JSNum → JSNum
  | JSNum.nan, _ => JSNum.nan
  | _, JSNum.nan => JSNum.nan
  | JSNum.num a, JSNum.num b => JSNum.num (a * b)
  | JSNum.num a, JSNum.inf =>
    if a = 0 then JSNum.nan else if 0 < a then JSNum.inf else JSNum.negInf
  | JSNum.num a, JSNum.negInf =>
    if a = 0 then JSNum.nan else if 0 < a then JSNum.negInf else JSNum.inf
  | JSNum.inf, JSNum.num b =>
    if b = 0 then JSNum.nan else if 0 < b then JSNum.inf else JSNum.negInf
  | JSNum.negInf, JSNum.num b =>
    if b = 0 then JSNum.nan else if 0 < b then JSNum.negInf else JSNum.inf
  | JSNum.inf, JSNum.inf => JSNum.inf
  | JSNum.inf, JSNum.negInf => JSNum.negInf
  | JSNum.negInf, JSNum.inf => JSNum.negInf
  | JSNum.negInf, JSNum.negInf => JSNum.inf

/-- The configured vague-quantity terms of `parseQuantity`. -/
def nonScalableTerms : List Str :=
  ["to taste".toList, "pinch".toList, "dash".toList, "handful".toList,
    "splash".toList]

/-- The check `nonScalableTerms.some((term) => trimmed.includes(term))`. -/
def hasVagueTerm (l : Str) : Bool :=
  nonScalableTerms.any (fun t => decide (t <:+: l))

/-- Attempt to match the regex `(\d+)\s+(\d+)\/(\d+)` anchored at the head
of `s`, returning the three captures. -/
def tryMixedAt (s : Str) : Option (ℕ × ℕ × ℕ) :=
  let d1 := s.takeWhile isDig
  let r1 := s.dropWhile isDig
  if d1 = [] then none
  else
    let w1 := r1.takeWhile wsp
    let r2 := r1.dropWhile wsp
    if w1 = [] then none
    else
      let d2 := r2.takeWhile isDig
      let r3 := r2.dropWhile isDig
      if d2 = [] then none
      else
        match r3 with
        | '/' :: r4 =>
          let d3 := r4.takeWhile isDig
          if d3 = [] then none
          else some (parseIntDigits d1, parseIntDigits d2, parseIntDigits d3)
        | _ => none

/-- Leftmost match of `(\d+)\s+(\d+)\/(\d+)` anywhere in the string. -/
def matchMixed : Str → Option (ℕ × ℕ × ℕ)
  | [] => none
  | c :: t =>
    match tryMixedAt (c :: t) with
    | some r => some r
    | none => matchMixed t

/-- Attempt to match the regex `(\d+)\/(\d+)` anchored at the head of `s`. -/
def tryFracAt (s : Str) : Option (ℕ × ℕ) :=
  let d1 := s.takeWhile isDig
  let r1 := s.dropWhile isDig
  if d1 = [] then none
  else
    match r1 with
    | '/' :: r2 =>
      let d2 := r2.takeWhile isDig
      if d2 = [] then none else some (parseIntDigits d1, parseIntDigits d2)
    | _ => none

/-- Leftmost match of `(\d+)\/(\d+)` anywhere in the string. -/
def matchFraction : Str → Option (ℕ × ℕ)
  | [] => none
  | c :: t =>
    match tryFracAt (c :: t) with
    | some r => some r
    | none => matchFraction t

/-- Attempt to match the regex `(\d+\.?\d*)` anchored at the head of `s`,
returning the digits before and after the optional decimal point. -/
def tryNumAt (s : Str) : Option (Str × Str) :=
  let d1 := s.takeWhile isDig
  let r1 := s.dropWhile isDig
  if d1 = [] then none
  else
    match r1 with
    | '.' :: r2 => some (d1, r2.takeWhile isDig)
    | _ => some (d1, [])

/-- Leftmost match of `(\d+\.?\d*)` anywhere in the string. -/
def matchNumber : Str → Option (Str × Str)
  | [] => none
  | c :: t =>
    match tryNumAt (c :: t) with
    | some r => some r
    | none => matchNumber t

/-- Round a rational to the nearest integer, ties to even: the rounding
of the significand used by IEEE-754 round-to-nearest. -/
def roundEven (x : ℚ) : ℤ :=
  let fl := ⌊x⌋
  let fr := x - (fl : ℚ)
  if fr < 1/2 then fl
  else if 1/2 < fr then fl + 1
  else (if 2 ∣ fl then fl else fl + 1)

/-- Round a non-negative rational to the nearest IEEE-754 binary64 value:
scale into the 53-bit significand range `[2^52, 2^53)`, round to the
nearest integer with ties to even, and scale back.  Subnormals and
overflow are outside the range exercised here and are not modelled. -/
def roundDouble (q : ℚ) : ℚ :=
  if q = 0 then 0
  else (roundEven (q / 2 ^ (Int.log 2 q - 52)) : ℚ) * 2 ^ (Int.log 2 q - 52)

/-- `parseFloat` on a capture of the shape `\d+\.?\d*`: the exact decimal
value of the capture, rounded to the nearest double. -/
def parseFloatD (ip fp : Str) : ℚ :=
  roundDouble ((parseIntDigits ip : ℚ) + (parseIntDigits fp : ℚ) / 10 ^ fp.length)

/-- Embedding of `parseQuantity` from `servingScaler.ts`: lower-case and
trim the input, reject vague-quantity terms, then try the mixed-number,
simple-fraction and decimal patterns in that order. -/
def parseQuantity (quantity : Str) : Option JSNum :=
  let trimmed := lowerStr (trimStr quantity)
  if hasVagueTerm trimmed then none
  else
    match matchMixed trimmed with
    | some (w, n, d) => some (jsAddNat w (jsDivNat n d))
    | none =>
      match matchFraction trimmed with
      | some (n, d) => some (jsDivNat n d)
      | none =>
        match matchNumber trimmed with
        | some (ip, fp) => some (JSNum.num (parseFloatD ip fp))
        | none => none

/-- The candidate table `fractions` of `toFraction`, in source order. -/
def fractionCandidates : List (ℚ × Str) :=
  [(0, []), (1/4, "1/4".toList), (33/100, "1/3".toList),
    (1/2, "1/2".toList), (67/100, "2/3".toList), (3/4, "3/4".toList)]

/-- The closest-candidate loop of `toFraction`, written tail-recursively:
each step replaces the accumulator exactly when the candidate is strictly
closer to `fraction`. -/
def selLoop (fraction : ℚ) : List (ℚ × Str) → (ℚ × Str) × ℚ → (ℚ × Str) × ℚ
  | [], acc => acc
  | frac :: rest, acc =>
    selLoop fraction rest
      (if |fraction - frac.1| < acc.2 then (frac, |fraction - frac.1|) else acc)

/-- The selection of the closest candidate fraction, initialised as in the
source with `fractions[0] = {value: 0, str: ''}`. -/
def selClosest (fraction : ℚ) : (ℚ × Str) × ℚ :=
  selLoop fraction fractionCandidates ((0, []), |fraction - 0|)

/-- Embedding of `toFraction` from `servingScaler.ts`. -/
def toFraction (decimal : ℚ) : Str :=
  let whole : ℤ := ⌊decimal⌋
  let fraction : ℚ := decimal - (whole : ℚ)
  let sel := selClosest fraction
  let closest := sel.1
  let minDiff := sel.2
  if minDiff < 5/100 then
    (if closest.1 = 0 then intToDigits whole else intToDigits (whole + 1))
  else if whole = 0 then closest.2
  else if closest.2 = [] then intToDigits whole
  else intToDigits whole ++ ' ' :: closest.2

/-- Rendering of a scaled amount.  On a finite value this is `toFraction`;
on the non-finite values it is the string `Number.prototype.toString`
produces, which is what the source's template literal interpolates (inside
`toFraction`, every comparison against `NaN` is false, so the code falls
through to `whole.toString()` with `whole` equal to `Infinity`, `-Infinity`
or `NaN`). -/
def toFractionJS : JSNum → Str
  | JSNum.num q => toFraction q
  | JSNum.inf => "Infinity".toList
  | JSNum.negInf => "-Infinity".toList
  | JSNum.nan => "NaN".toList

/-- The unit extraction `ingredient.quantity.match(/[a-zA-Z]+/)`: the
leftmost maximal run of ASCII letters, or the empty string when there is
none. -/
def firstLetterRun : Str → Str
  | [] => []
  | c :: t => if isAlphaChar c then c :: t.takeWhile isAlphaChar
    else firstLetterRun t

/-- The `Ingredient` record of `shared/types.ts`. -/
structure Ingredient where
  quantity : Str
  name : Str
  notes : Option Str
deriving DecidableEq

/-- The `NutritionInfo` record of `shared/types.ts`. -/
structure NutritionInfo where
  protein : ℚ
  fiber : ℚ
  calories : ℚ

/-- The `platform` union of `RecipeSource`. -/
inductive Platform where
  | instagram
  | tiktok
  | youtube
  | web

/-- The `RecipeSource` record of `shared/types.ts`. -/
structure RecipeSource where
  platform : Platform
  author : Str
  url : Str

/-- The `Recipe` record of `shared/types.ts`. -/
structure Recipe where
  name : Str
  servings : ℚ
  prepTime : Option ℚ
  cookTime : Option ℚ
  ingredients : List Ingredient
  instructions : List Str
  nutrition : Option NutritionInfo
  source : RecipeSource

/-- Embedding of `scaleIngredient` from `servingScaler.ts`. -/
def scaleIngredient (ingredient : Ingredient) (fromServings toServings : ℚ) :
    Ingredient :=
  match parseQuantity ingredient.quantity with
  | none => ingredient
  | some parsed =>
    let scaleFactor := jsDivQ toServings fromServings
    let scaledQuantity := jsMul parsed scaleFactor
    let unit := firstLetterRun ingredient.quantity
    let quantityStr := toFractionJS scaledQuantity
    { ingredient with
      quantity := if unit = [] then quantityStr else quantityStr ++ ' ' :: unit }

/-- Embedding of `scaleRecipeServings` from `servingScaler.ts`. -/
def scaleRecipeServings (recipe : Recipe) (newServings : ℚ) : Recipe :=
  { recipe with
    servings := newServings
    ingredients :=
      recipe.ingredients.map (fun i => scaleIngredient i recipe.servings newServings) }

example : matchFraction ("1/2 cup".toList) = some (1, 2) := by decide
example : matchMixed ("1  1/2".toList) = some (1, 1, 2) := by decide
example : matchNumber ("2 cups".toList) = some (['2'], []) := by decide
example : hasVagueTerm ("salt to taste".toList) = true := by decide
example : firstLetterRun ("1/2 cup".toList) = "cup".toList := by decide
example : trimStr ("  2 cups  ".toList) = "2 cups".toList := by decide
example : lowerStr ("To Taste".toList) = "to taste".toList := by decide
example : intToDigits 12 = "12".toList := by decide
example : natToDigits 9007199254740993 = "9007199254740993".toList := by decide
example : parseQuantity ("1/0".toList) = some JSNum.inf := by decide
example : parseQuantity ("to taste".toList) = none := by decide

/-! General helper lemmas about the embedded primitives. -/

/-- Rounding an integer to the nearest integer is the identity. -/
theorem roundEven_intCast (z : ℤ) : roundEven (z : ℚ) = z := by
  rw [roundEven, Int.floor_intCast]
  rw [show ((z : ℚ) - (z : ℚ)) = 0 from by ring]
  rw [if_pos (by norm_num)]

/-- Rounding preserves non-negativity. -/
theorem roundEven_nonneg (x : ℚ) (hx : 0 ≤ x) : 0 ≤ roundEven x := by
  have hfl : 0 ≤ ⌊x⌋ := Int.floor_nonneg.mpr hx
  rw [roundEven]
  split_ifs <;> omega

/-- Double rounding preserves non-negativity. -/
theorem roundDouble_nonneg (q : ℚ) (h : 0 ≤ q) : 0 ≤ roundDouble q := by
  rw [roundDouble]
  split_ifs with h0
  · norm_num
  · have hm : (0 : ℚ) ≤ q / 2 ^ (Int.log 2 q - 52) := by positivity
    have h1 : (0 : ℚ) ≤ (roundEven (q / 2 ^ (Int.log 2 q - 52)) : ℚ) := by
      exact_mod_cast roundEven_nonneg _ hm
    exact mul_nonneg h1 (by positivity)

/-- Every natural number up to `2 ^ 53` is exactly representable as a
double, so double rounding is the identity on it. -/
theorem roundDouble_natCast_le {n : ℕ} (hn : n ≤ 2 ^ 53) :
    roundDouble (n : ℚ) = n := by
  rcases Nat.eq_zero_or_pos n with rfl | hpos
  · simp [roundDouble]
  have hne : (n : ℚ) ≠ 0 := Nat.cast_ne_zero.mpr hpos.ne'
  have hlog : Int.log 2 ((n : ℕ) : ℚ) = (Nat.log 2 n : ℤ) := Int.log_natCast 2 n
  have hpow := Nat.pow_log_le_self 2 hpos.ne'
  have hLle : Nat.log 2 n ≤ 53 := by
    by_contra hgt
    have h1 : 2 ^ 54 ≤ 2 ^ Nat.log 2 n := Nat.pow_le_pow_right (by norm_num) (by omega)
    have h2 := le_trans h1 hpow
    norm_num at h2
    omega
  by_cases hle : Nat.log 2 n ≤ 52
  · have hz : (n : ℚ) / 2 ^ (Int.log 2 (n : ℚ) - 52) =
        (((n * 2 ^ (52 - Nat.log 2 n) : ℕ) : ℤ) : ℚ) := by
      rw [hlog]
      rw [show (Nat.log 2 n : ℤ) - 52 = -((52 - Nat.log 2 n : ℕ) : ℤ) from by
        push_cast [Nat.cast_sub hle]
        ring]
      rw [zpow_neg, div_eq_mul_inv, inv_inv, zpow_natCast]
      push_cast
      ring
    rw [roundDouble, if_neg hne, hz, roundEven_intCast, hlog]
    rw [show (Nat.log 2 n : ℤ) - 52 = -((52 - Nat.log 2 n : ℕ) : ℤ) from by
      push_cast [Nat.cast_sub hle]
      ring]
    rw [zpow_neg, zpow_natCast]
    push_cast
    rw [mul_inv_cancel_right₀ (by positivity)]
  · have hL53 : Nat.log 2 n = 53 := by omega
    have h2 : 2 ^ 53 ≤ n := by rw [← hL53]; exact hpow
    have hn53 : n = 2 ^ 53 := le_antisymm hn h2
    subst hn53
    rw [roundDouble, if_neg hne, hlog, hL53]
    rw [show ((53 : ℕ) : ℤ) - 52 = 1 from by norm_num, zpow_one]
    rw [show (((2 ^ 53 : ℕ) : ℚ)) / 2 = (((2 ^ 52 : ℤ) : ℤ) : ℚ) from by
      push_cast
      ring]
    rw [roundEven_intCast]
    push_cast
    ring

/-- The value `2 ^ 53 + 1` lies exactly halfway between the two adjacent
doubles `2 ^ 53` and `2 ^ 53 + 2`; ties-to-even rounds it down to
`2 ^ 53`. -/
theorem roundDouble_tieEven :
    roundDouble (9007199254740993 : ℚ) = 9007199254740992 := by
  have hlog : Int.log 2 (9007199254740993 : ℚ) = (53 : ℤ) := by
    rw [show (9007199254740993 : ℚ) = ((9007199254740993 : ℕ) : ℚ) from by norm_num]
    rw [Int.log_natCast]
    rw [show Nat.log 2 9007199254740993 = 53 from
      Nat.log_eq_of_pow_le_of_lt_pow (by norm_num) (by norm_num)]
    norm_num
  rw [roundDouble, if_neg (by norm_num), hlog]
  rw [show (53 : ℤ) - 52 = 1 from by norm_num, zpow_one]
  rw [show roundEven ((9007199254740993 : ℚ) / 2) = 4503599627370496 from by
    rw [roundEven]
    rw [show ⌊(9007199254740993 : ℚ) / 2⌋ = 4503599627370496 from by norm_num]
    rw [show ((9007199254740993 : ℚ) / 2 - ((4503599627370496 : ℤ) : ℚ)) = 1/2 from by
      push_cast
      ring]
    rw [if_neg (by norm_num), if_neg (by norm_num), if_pos (by norm_num)]]
  norm_num

/-- The value of a decimal capture with no fractional digits: the integer
value of the digits, rounded to the nearest double. -/
theorem parseFloatD_nil (l : Str) :
    parseFloatD l [] = roundDouble (parseIntDigits l : ℚ) := by
  rw [parseFloatD]
  rw [show parseIntDigits [] = 0 from rfl]
  norm_num

/-- Unfolding lemma: the closest-candidate loop on the empty list. -/
theorem selLoop_nil (f : ℚ) (acc : (ℚ × Str) × ℚ) : selLoop f [] acc = acc := rfl

/-- One step of the closest-candidate loop, with the absolute difference
precomputed so that the branch condition becomes a closed comparison. -/
theorem selLoop_cons {f v d : ℚ} (s : Str) (rest : List (ℚ × Str))
    (p : ℚ × Str) (m : ℚ) (hd : |f - v| = d) :
    selLoop f ((v, s) :: rest) (p, m) =
      if d < m then selLoop f rest ((v, s), d) else selLoop f rest (p, m) := by
  rw [selLoop]
  by_cases h : d < m
  · rw [if_pos h, if_pos (show |f - (v, s).1| < (p, m).2 from by simpa [hd] using h)]
    rw [show |f - (v, s).1| = d from by simpa using hd]
  · rw [if_neg h, if_neg (show ¬ (|f - (v, s).1| < (p, m).2) from by simpa [hd] using h)]

/-- Candidate selection for a fractional part in `[0, 1/8]`: the zero
candidate is at least as close as every other and, being first, wins all
ties under the strict comparison. -/
theorem selClosest_small (f : ℚ) (h0 : 0 ≤ f) (h1 : f ≤ 1/8) :
    selClosest f = ((0, []), f) := by
  unfold selClosest fractionCandidates
  rw [show |f - 0| = f from by rw [sub_zero, abs_of_nonneg h0]]
  rw [selLoop_cons _ _ _ _ (show |f - 0| = f from by rw [sub_zero, abs_of_nonneg h0]),
    if_neg (lt_irrefl f)]
  rw [selLoop_cons _ _ _ _ (show |f - 1/4| = 1/4 - f from by
        rw [abs_of_nonpos] <;> linarith),
    if_neg (by intro h; linarith)]
  rw [selLoop_cons _ _ _ _ (show |f - 33/100| = 33/100 - f from by
        rw [abs_of_nonpos] <;> linarith),
    if_neg (by intro h; linarith)]
  rw [selLoop_cons _ _ _ _ (show |f - 1/2| = 1/2 - f from by
        rw [abs_of_nonpos] <;> linarith),
    if_neg (by intro h; linarith)]
  rw [selLoop_cons _ _ _ _ (show |f - 67/100| = 67/100 - f from by
        rw [abs_of_nonpos] <;> linarith),
    if_neg (by intro h; linarith)]
  rw [selLoop_cons _ _ _ _ (show |f - 3/4| = 3/4 - f from by
        rw [abs_of_nonpos] <;> linarith),
    if_neg (by intro h; linarith)]
  exact selLoop_nil _ _

/-- Candidate selection at a fractional part of exactly `1/4`. -/
theorem selClosest_quarter : selClosest (1/4) = ((1/4, "1/4".toList), 0) := by
  unfold selClosest fractionCandidates
  rw [show |(1/4 : ℚ) - 0| = 1/4 from by rw [abs_of_nonneg] <;> norm_num]
  rw [selLoop_cons _ _ _ _ (show |(1/4 : ℚ) - 0| = 1/4 from by
        rw [abs_of_nonneg] <;> norm_num),
    if_neg (by norm_num)]
  rw [selLoop_cons _ _ _ _ (show |(1/4 : ℚ) - 1/4| = 0 from by norm_num),
    if_pos (by norm_num)]
  rw [selLoop_cons _ _ _ _ (show |(1/4 : ℚ) - 33/100| = 2/25 from by
        rw [abs_of_nonpos] <;> norm_num),
    if_neg (by norm_num)]
  rw [selLoop_cons _ _ _ _ (show |(1/4 : ℚ) - 1/2| = 1/4 from by
        rw [abs_of_nonpos] <;> norm_num),
    if_neg (by norm_num)]
  rw [selLoop_cons _ _ _ _ (show |(1/4 : ℚ) - 67/100| = 21/50 from by
        rw [abs_of_nonpos] <;> norm_num),
    if_neg (by norm_num)]
  rw [selLoop_cons _ _ _ _ (show |(1/4 : ℚ) - 3/4| = 1/2 from by
        rw [abs_of_nonpos] <;> norm_num),
    if_neg (by norm_num)]
  exact selLoop_nil _ _

/-- Candidate selection at a fractional part of exactly `1/2`. -/
theorem selClosest_half : selClosest (1/2) = ((1/2, "1/2".toList), 0) := by
  unfold selClosest fractionCandidates
  rw [show |(1/2 : ℚ) - 0| = 1/2 from by rw [abs_of_nonneg] <;> norm_num]
  rw [selLoop_cons _ _ _ _ (show |(1/2 : ℚ) - 0| = 1/2 from by
        rw [abs_of_nonneg] <;> norm_num),
    if_neg (by norm_num)]
  rw [selLoop_cons _ _ _ _ (show |(1/2 : ℚ) - 1/4| = 1/4 from by
        rw [abs_of_nonneg] <;> norm_num),
    if_pos (by norm_num)]
  rw [selLoop_cons _ _ _ _ (show |(1/2 : ℚ) - 33/100| = 17/100 from by
        rw [abs_of_nonneg] <;> norm_num),
    if_pos (by norm_num)]
  rw [selLoop_cons _ _ _ _ (show |(1/2 : ℚ) - 1/2| = 0 from by norm_num),
    if_pos (by norm_num)]
  rw [selLoop_cons _ _ _ _ (show |(1/2 : ℚ) - 67/100| = 17/100 from by
        rw [abs_of_nonpos] <;> norm_num),
    if_neg (by norm_num)]
  rw [selLoop_cons _ _ _ _ (show |(1/2 : ℚ) - 3/4| = 1/4 from by
        rw [abs_of_nonpos] <;> norm_num),
    if_neg (by norm_num)]
  exact selLoop_nil _ _

/-- Candidate selection at a fractional part of exactly `3/4`. -/
theorem selClosest_threeQuarters : selClosest (3/4) = ((3/4, "3/4".toList), 0) := by
  unfold selClosest fractionCandidates
  rw [show |(3/4 : ℚ) - 0| = 3/4 from by rw [abs_of_nonneg] <;> norm_num]
  rw [selLoop_cons _ _ _ _ (show |(3/4 : ℚ) - 0| = 3/4 from by
        rw [abs_of_nonneg] <;> norm_num),
    if_neg (by norm_num)]
  rw [selLoop_cons _ _ _ _ (show |(3/4 : ℚ) - 1/4| = 1/2 from by
        rw [abs_of_nonneg] <;> norm_num),
    if_pos (by norm_num)]
  rw [selLoop_cons _ _ _ _ (show |(3/4 : ℚ) - 33/100| = 21/50 from by
        rw [abs_of_nonneg] <;> norm_num),
    if_pos (by norm_num)]
  rw [selLoop_cons _ _ _ _ (show |(3/4 : ℚ) - 1/2| = 1/4 from by
        rw [abs_of_nonneg] <;> norm_num),
    if_pos (by norm_num)]
  rw [selLoop_cons _ _ _ _ (show |(3/4 : ℚ) - 67/100| = 2/25 from by
        rw [abs_of_nonneg] <;> norm_num),
    if_pos (by norm_num)]
  rw [selLoop_cons _ _ _ _ (show |(3/4 : ℚ) - 3/4| = 0 from by norm_num),
    if_pos (by norm_num)]
  exact selLoop_nil _ _

/-- Candidate selection at a fractional part of `0.96`: the nearest
candidate is `3/4`, at distance `0.21`. -/
theorem selClosest_ninetySix : selClosest (24/25) = ((3/4, "3/4".toList), 21/100) := by
  unfold selClosest fractionCandidates
  rw [show |(24/25 : ℚ) - 0| = 24/25 from by rw [abs_of_nonneg] <;> norm_num]
  rw [selLoop_cons _ _ _ _ (show |(24/25 : ℚ) - 0| = 24/25 from by
        rw [abs_of_nonneg] <;> norm_num),
    if_neg (by norm_num)]
  rw [selLoop_cons _ _ _ _ (show |(24/25 : ℚ) - 1/4| = 71/100 from by
        rw [abs_of_nonneg] <;> norm_num),
    if_pos (by norm_num)]
  rw [selLoop_cons _ _ _ _ (show |(24/25 : ℚ) - 33/100| = 63/100 from by
        rw [abs_of_nonneg] <;> norm_num),
    if_pos (by norm_num)]
  rw [selLoop_cons _ _ _ _ (show |(24/25 : ℚ) - 1/2| = 23/50 from by
        rw [abs_of_nonneg] <;> norm_num),
    if_pos (by norm_num)]
  rw [selLoop_cons _ _ _ _ (show |(24/25 : ℚ) - 67/100| = 29/100 from by
        rw [abs_of_nonneg] <;> norm_num),
    if_pos (by norm_num)]
  rw [selLoop_cons _ _ _ _ (show |(24/25 : ℚ) - 3/4| = 21/100 from by
        rw [abs_of_nonneg] <;> norm_num),
    if_pos (by norm_num)]
  exact selLoop_nil _ _

/-- Candidate selection at a fractional part of `0.98`: the nearest
candidate is `3/4`, at distance `0.23`. -/
theorem selClosest_ninetyEight : selClosest (49/50) = ((3/4, "3/4".toList), 23/100) := by
  unfold selClosest fractionCandidates
  rw [show |(49/50 : ℚ) - 0| = 49/50 from by rw [abs_of_nonneg] <;> norm_num]
  rw [selLoop_cons _ _ _ _ (show |(49/50 : ℚ) - 0| = 49/50 from by
        rw [abs_of_nonneg] <;> norm_num),
    if_neg (by norm_num)]
  rw [selLoop_cons _ _ _ _ (show |(49/50 : ℚ) - 1/4| = 73/100 from by
        rw [abs_of_nonneg] <;> norm_num),
    if_pos (by norm_num)]
  rw [selLoop_cons _ _ _ _ (show |(49/50 : ℚ) - 33/100| = 13/20 from by
        rw [abs_of_nonneg] <;> norm_num),
    if_pos (by norm_num)]
  rw [selLoop_cons _ _ _ _ (show |(49/50 : ℚ) - 1/2| = 12/25 from by
        rw [abs_of_nonneg] <;> norm_num),
    if_pos (by norm_num)]
  rw [selLoop_cons _ _ _ _ (show |(49/50 : ℚ) - 67/100| = 31/100 from by
        rw [abs_of_nonneg] <;> norm_num),
    if_pos (by norm_num)]
  rw [selLoop_cons _ _ _ _ (show |(49/50 : ℚ) - 3/4| = 23/100 from by
        rw [abs_of_nonneg] <;> norm_num),
    if_pos (by norm_num)]
  exact selLoop_nil _ _

/-- Scaffold for evaluating `toFraction`: once the floor, the fractional
part and the candidate selection are known, only the branch structure of
the source remains. -/
theorem toFraction_eq (d f : ℚ) (w : ℤ) (c : ℚ × Str) (m : ℚ)
    (hw : ⌊d⌋ = w) (hf : d - (w : ℚ) = f) (hsel : selClosest f = (c, m)) :
    toFraction d =
      if m < 5/100 then
        (if c.1 = 0 then intToDigits w else intToDigits (w + 1))
      else if w = 0 then c.2
      else if c.2 = [] then intToDigits w
      else intToDigits w ++ ' ' :: c.2 := by
  rw [toFraction]
  simp only [hw, hf, hsel]

/-- Evaluation: `toFraction(0.25)` takes the rounding branch (the minimal
difference `0` is below the tolerance) with nearest candidate `1/4`, so it
rounds up to the whole number `1`. -/
theorem toFraction_quarter : toFraction (1/4) = "1".toList := by
  rw [toFraction_eq (1/4) (1/4) 0 (1/4, "1/4".toList) 0 (by norm_num)
    (by norm_num) selClosest_quarter]
  norm_num
  decide

/-- Evaluation: `toFraction(0.5) = "1"`. -/
theorem toFraction_half : toFraction (1/2) = "1".toList := by
  rw [toFraction_eq (1/2) (1/2) 0 (1/2, "1/2".toList) 0 (by norm_num)
    (by norm_num) selClosest_half]
  norm_num
  decide

/-- Evaluation: `toFraction(0.75) = "1"`. -/
theorem toFraction_threeQuarters : toFraction (3/4) = "1".toList := by
  rw [toFraction_eq (3/4) (3/4) 0 (3/4, "3/4".toList) 0 (by norm_num)
    (by norm_num) selClosest_threeQuarters]
  norm_num
  decide

/-- Evaluation: `toFraction(1.25) = "2"`. -/
theorem toFraction_fiveQuarters : toFraction (5/4) = "2".toList := by
  rw [toFraction_eq (5/4) (1/4) 1 (1/4, "1/4".toList) 0 (by norm_num)
    (by norm_num) selClosest_quarter]
  norm_num
  decide

/-- Evaluation: `toFraction(1) = "1"`. -/
theorem toFraction_one : toFraction 1 = "1".toList := by
  rw [toFraction_eq 1 0 1 (0, []) 0 (by norm_num) (by norm_num)
    (selClosest_small 0 (le_refl 0) (by norm_num))]
  norm_num
  decide

/-- Evaluation: `toFraction(2.96) = "2 3/4"`: no candidate fraction is
within the tolerance of the remainder `0.96`, so the value is rendered as
whole part plus nearest fraction. -/
theorem toFraction_twoNinetySix : toFraction (296/100) = "2 3/4".toList := by
  rw [toFraction_eq (296/100) (24/25) 2 (3/4, "3/4".toList) (21/100)
    (by norm_num) (by norm_num) selClosest_ninetySix]
  rw [if_neg (by norm_num), if_neg (by norm_num), if_neg (by decide)]
  decide

/-- Evaluation: `toFraction(0.98) = "3/4"`: no candidate fraction is
within the tolerance of `0.98`, and the whole part is `0`, so only the
nearest fraction string is returned. -/
theorem toFraction_ninetyEight : toFraction (98/100) = "3/4".toList := by
  rw [toFraction_eq (98/100) (49/50) 0 (3/4, "3/4".toList) (23/100)
    (by norm_num) (by norm_num) selClosest_ninetyEight]
  rw [if_neg (by norm_num), if_pos rfl]

/-- Evaluation used by the implicit render-to-empty claim: any value in
`[0.05, 0.125]` selects candidate `0` with a minimal difference at or above
the tolerance, and the zero whole part returns the empty candidate
string. -/
theorem toFraction_gap (x : ℚ) (h0 : 0 ≤ x) (hf : ⌊x⌋ = 0)
    (h1 : 1/20 ≤ x) (h2 : x ≤ 1/8) : toFraction x = [] := by
  rw [toFraction_eq x x 0 (0, []) x hf (by norm_num) (selClosest_small x h0 h2)]
  rw [if_neg (by intro h; linarith), if_pos rfl]

/-! Path lemmas for `parseQuantity`, splitting the string-level phase
(settled by `decide` on concrete inputs) from the rational phase. -/

/-- A vague-quantity term forces the non-scalable result. -/
theorem parseQuantity_vague {s : Str}
    (h0 : hasVagueTerm (lowerStr (trimStr s)) = true) : parseQuantity s = none := by
  rw [parseQuantity]
  simp only [h0, if_true]

/-- The mixed-number path of `parseQuantity`. -/
theorem parseQuantity_mixed {s : Str} (w n d : ℕ)
    (h0 : hasVagueTerm (lowerStr (trimStr s)) = false)
    (h1 : matchMixed (lowerStr (trimStr s)) = some (w, n, d)) :
    parseQuantity s = some (jsAddNat w (jsDivNat n d)) := by
  rw [parseQuantity]
  simp only [h0, Bool.false_eq_true, if_false, h1]

/-- The simple-fraction path of `parseQuantity`. -/
theorem parseQuantity_frac {s : Str} (n d : ℕ)
    (h0 : hasVagueTerm (lowerStr (trimStr s)) = false)
    (h1 : matchMixed (lowerStr (trimStr s)) = none)
    (h2 : matchFraction (lowerStr (trimStr s)) = some (n, d)) :
    parseQuantity s = some (jsDivNat n d) := by
  rw [parseQuantity]
  simp only [h0, Bool.false_eq_true, if_false, h1, h2]

/-- The decimal path of `parseQuantity`. -/
theorem parseQuantity_dec {s : Str} (ip fp : Str)
    (h0 : hasVagueTerm (lowerStr (trimStr s)) = false)
    (h1 : matchMixed (lowerStr (trimStr s)) = none)
    (h2 : matchFraction (lowerStr (trimStr s)) = none)
    (h3 : matchNumber (lowerStr (trimStr s)) = some (ip, fp)) :
    parseQuantity s = some (JSNum.num (parseFloatD ip fp)) := by
  rw [parseQuantity]
  simp only [h0, Bool.false_eq_true, if_false, h1, h2, h3]

/-- Evaluation: `parseQuantity("1/2") = 0.5`. -/
theorem parseQuantity_oneHalf :
    parseQuantity ("1/2".toList) = some (JSNum.num (1/2)) := by
  rw [parseQuantity_frac 1 2 (by decide) (by decide) (by decide)]
  rw [jsDivNat, if_neg (by norm_num)]
  norm_num

/-- Evaluation: `parseQuantity("1 1/2") = 1.5`. -/
theorem parseQuantity_oneAndHalf :
    parseQuantity ("1 1/2".toList) = some (JSNum.num (3/2)) := by
  rw [parseQuantity_mixed 1 1 2 (by decide) (by decide)]
  rw [jsDivNat, if_neg (by norm_num)]
  rw [jsAddNat]
  norm_num

/-- Evaluation: `parseQuantity("2 1/4") = 2.25`. -/
theorem parseQuantity_twoAndQuarter :
    parseQuantity ("2 1/4".toList) = some (JSNum.num (9/4)) := by
  rw [parseQuantity_mixed 2 1 4 (by decide) (by decide)]
  rw [jsDivNat, if_neg (by norm_num)]
  rw [jsAddNat]
  norm_num

/-- Evaluation: `parseQuantity("1  1/2")`, with doubled internal
whitespace, still parses as the mixed number 1.5. -/
theorem parseQuantity_oneAndHalfWide :
    parseQuantity ("1  1/2".toList) = some (JSNum.num (3/2)) := by
  rw [parseQuantity_mixed 1 1 2 (by decide) (by decide)]
  rw [jsDivNat, if_neg (by norm_num)]
  rw [jsAddNat]
  norm_num

/-- Evaluation: `parseQuantity("2 cups") = 2`. -/
theorem parseQuantity_twoCups :
    parseQuantity ("2 cups".toList) = some (JSNum.num 2) := by
  rw [parseQuantity_dec ['2'] [] (by decide) (by decide) (by decide) (by decide)]
  rw [show parseFloatD ['2'] [] = 2 from by
    rw [parseFloatD_nil, show parseIntDigits ['2'] = 2 from by decide,
      roundDouble_natCast_le (by norm_num)]
    norm_num]

/-- Evaluation: `parseQuantity("1/2 cup") = 0.5`. -/
theorem parseQuantity_halfCup :
    parseQuantity ("1/2 cup".toList) = some (JSNum.num (1/2)) := by
  rw [parseQuantity_frac 1 2 (by decide) (by decide) (by decide)]
  rw [jsDivNat, if_neg (by norm_num)]
  norm_num

/-- Evaluation: `parseQuantity("1 cup") = 1`. -/
theorem parseQuantity_oneCup :
    parseQuantity ("1 cup".toList) = some (JSNum.num 1) := by
  rw [parseQuantity_dec ['1'] [] (by decide) (by decide) (by decide) (by decide)]
  rw [show parseFloatD ['1'] [] = 1 from by
    rw [parseFloatD_nil, show parseIntDigits ['1'] = 1 from by decide,
      roundDouble_natCast_le (by norm_num)]
    norm_num]

/-- Unfolding lemma for `scaleIngredient` when the quantity does not
parse. -/
theorem scaleIngredient_none {ing : Ingredient}
    (hp : parseQuantity ing.quantity = none) (fromS toS : ℚ) :
    scaleIngredient ing fromS toS = ing := by
  rw [scaleIngredient, hp]

/-- Unfolding lemma for `scaleIngredient` when the quantity parses: the
new quantity is the rendered scaled amount followed by the unit token when
one exists. -/
theorem scaleIngredient_num {ing : Ingredient} (p : JSNum)
    (hp : parseQuantity ing.quantity = some p) (fromS toS : ℚ) :
    scaleIngredient ing fromS toS =
      { ing with quantity :=
          (if firstLetterRun ing.quantity = [] then
            toFractionJS (jsMul p (jsDivQ toS fromS))
          else
            toFractionJS (jsMul p (jsDivQ toS fromS)) ++ ' ' ::
              firstLetterRun ing.quantity) } := by
  rw [scaleIngredient, hp]

/-- Evaluation: scaling `1/2 cup` from 2 to 4 servings renders `1 cup`. -/
theorem scale_halfCup_2_4 :
    scaleIngredient ⟨"1/2 cup".toList, "sugar".toList, none⟩ 2 4 =
      ⟨"1 cup".toList, "sugar".toList, none⟩ := by
  rw [scaleIngredient_num (JSNum.num (1/2)) parseQuantity_halfCup 2 4]
  rw [show jsDivQ 4 2 = JSNum.num 2 from by
    rw [jsDivQ, if_neg (by norm_num)]; norm_num]
  rw [show jsMul (JSNum.num (1/2)) (JSNum.num 2) = JSNum.num 1 from by
    rw [jsMul]; norm_num]
  rw [show firstLetterRun ("1/2 cup".toList) = "cup".toList from by decide]
  rw [if_neg (by decide)]
  rw [show toFractionJS (JSNum.num 1) = toFraction 1 from rfl, toFraction_one]
  decide

/-- Evaluation: scaling `1 cup` from 4 to 2 servings renders `1 cup`
again, because `toFraction(0.5)` also takes the misfiring rounding
branch. -/
theorem scale_oneCup_4_2 :
    scaleIngredient ⟨"1 cup".toList, "sugar".toList, none⟩ 4 2 =
      ⟨"1 cup".toList, "sugar".toList, none⟩ := by
  rw [scaleIngredient_num (JSNum.num 1) parseQuantity_oneCup 4 2]
  rw [show jsDivQ 2 4 = JSNum.num (1/2) from by
    rw [jsDivQ, if_neg (by norm_num)]; norm_num]
  rw [show jsMul (JSNum.num 1) (JSNum.num (1/2)) = JSNum.num (1/2) from by
    rw [jsMul]; norm_num]
  rw [show firstLetterRun ("1 cup".toList) = "cup".toList from by decide]
  rw [if_neg (by decide)]
  rw [show toFractionJS (JSNum.num (1/2)) = toFraction (1/2) from rfl,
    toFraction_half]
  decide

/-- Evaluation: scaling `1/2 cup` from 2 to 2 servings renders `1 cup`,
a quantity four times the original. -/
theorem scale_halfCup_2_2 :
    scaleIngredient ⟨"1/2 cup".toList, "sugar".toList, none⟩ 2 2 =
      ⟨"1 cup".toList, "sugar".toList, none⟩ := by
  rw [scaleIngredient_num (JSNum.num (1/2)) parseQuantity_halfCup 2 2]
  rw [show jsDivQ 2 2 = JSNum.num 1 from by
    rw [jsDivQ, if_neg (by norm_num)]; norm_num]
  rw [show jsMul (JSNum.num (1/2)) (JSNum.num 1) = JSNum.num (1/2) from by
    rw [jsMul]; norm_num]
  rw [show firstLetterRun ("1/2 cup".toList) = "cup".toList from by decide]
  rw [if_neg (by decide)]
  rw [show toFractionJS (JSNum.num (1/2)) = toFraction (1/2) from rfl,
    toFraction_half]
  decide

/-- Evaluation: scaling `1 cup` from 10 to 1 servings renders the bare
unit string `" cup"`, because `toFraction(0.1)` is the empty string. -/
theorem scale_oneCup_10_1 :
    scaleIngredient ⟨"1 cup".toList, "rice".toList, none⟩ 10 1 =
      ⟨" cup".toList, "rice".toList, none⟩ := by
  rw [scaleIngredient_num (JSNum.num 1) parseQuantity_oneCup 10 1]
  rw [show jsDivQ 1 10 = JSNum.num (1/10) from by
    rw [jsDivQ, if_neg (by norm_num)]]
  rw [show jsMul (JSNum.num 1) (JSNum.num (1/10)) = JSNum.num (1/10) from by
    rw [jsMul, one_mul]]
  rw [show firstLetterRun ("1 cup".toList) = "cup".toList from by decide]
  rw [if_neg (by decide)]
  rw [show toFractionJS (JSNum.num (1/10)) = toFraction (1/10) from rfl,
    toFraction_gap (1/10) (by norm_num) (by norm_num) (by norm_num) (by norm_num)]
  decide

/-! Machinery for the non-scalable-term claim: an occurrence of a
lower-case term with non-whitespace first and last characters survives
both `trim` and `toLowerCase`. -/

/-- Whether a string is non-empty and starts with a non-whitespace
character. -/
def headNotWsp : Str → Bool
  | [] => false
  | c :: _ => !wsp c

/-- Reversal preserves infixes. -/
theorem infixRev {p s : Str} (h : p <:+: s) : p.reverse <:+: s.reverse := by
  rcases h with ⟨u, v, rfl⟩
  exact ⟨v.reverse, u.reverse, by simp⟩

/-- An infix whose first character is not whitespace survives dropping
leading whitespace. -/
theorem infix_dropWhile_wsp {p s : Str} (hh : headNotWsp p = true)
    (h : p <:+: s) : p <:+: s.dropWhile wsp := by
  induction s with
  | nil => exact h
  | cons a t ih =>
    rw [List.dropWhile_cons]
    by_cases ha : wsp a = true
    · rw [if_pos ha]
      rcases List.infix_cons_iff.mp h with hpre | hinf
      · cases p with
        | nil => simp [headNotWsp] at hh
        | cons c0 p' =>
          have e2 : c0 = a := (List.cons_prefix_cons.mp hpre).1
          have e3 : wsp c0 = false := by simpa [headNotWsp] using hh
          rw [e2] at e3
          exact absurd ha (by simp [e3])
      · exact ih hinf
    · rw [if_neg ha]
      exact h

/-- An infix that neither starts nor ends with whitespace survives
`trim`. -/
theorem infix_trimStr {p s : Str} (hh : headNotWsp p = true)
    (hl : headNotWsp p.reverse = true) (h : p <:+: s) : p <:+: trimStr s := by
  rw [trimStr]
  have s3 := infix_dropWhile_wsp hl (infixRev (infix_dropWhile_wsp hh h))
  have s4 := infixRev s3
  rwa [List.reverse_reverse] at s4

/-- An infix fixed by case folding survives `toLowerCase`. -/
theorem infix_lowerStr {p s : Str} (hp : lowerStr p = p) (h : p <:+: s) :
    p <:+: lowerStr s := by
  rcases h with ⟨u, v, rfl⟩
  refine ⟨u.map charLower, v.map charLower, ?_⟩
  rw [lowerStr, List.map_append, List.map_append]
  rw [show List.map charLower p = p from hp]

/-- A vague-quantity term occurring anywhere in a quantity string still
occurs in the lower-cased trimmed string that `parseQuantity` inspects. -/
theorem term_infix_lower_trim {p q : Str} (hp : p ∈ nonScalableTerms)
    (h : p <:+: q) : p <:+: lowerStr (trimStr q) := by
  simp only [nonScalableTerms, List.mem_cons, List.not_mem_nil, or_false] at hp
  rcases hp with rfl | rfl | rfl | rfl | rfl <;>
    exact infix_lowerStr (by decide) (infix_trimStr (by decide) (by decide) h)

/-- Any input whose lower-cased trimmed form contains a vague-quantity
term parses as non-scalable. -/
theorem parseQuantity_none_of_term {p : Str} (hp : p ∈ nonScalableTerms)
    {s : Str} (hinf : p <:+: lowerStr (trimStr s)) : parseQuantity s = none := by
  apply parseQuantity_vague
  rw [hasVagueTerm]
  exact List.any_eq_true.mpr ⟨p, hp, decide_eq_true hinf⟩

/-! Machinery for the decimal-string claim: on an all-digit input the
trim, case-fold and vague-term phases are identities, the mixed and
fraction patterns cannot match, and the decimal pattern captures the whole
string. -/

/-- All characters of the string are decimal digits. -/
def digitsOnly (l : Str) : Prop := ∀ c ∈ l, isDig c = true

/-- A digit is not whitespace. -/
theorem digit_not_wsp {c : Char} (h : isDig c = true) : wsp c = false := by
  rw [isDig] at h
  rw [wsp]
  simp only [Bool.and_eq_true, decide_eq_true_eq] at h
  simp only [Bool.or_eq_false_iff, decide_eq_false_iff_not]
  omega

/-- A digit is fixed by case folding. -/
theorem digit_charLower {c : Char} (h : isDig c = true) : charLower c = c := by
  rw [isDig] at h
  simp only [Bool.and_eq_true, decide_eq_true_eq] at h
  rw [charLower, if_neg]
  simp only [Bool.and_eq_true, decide_eq_true_eq, not_and]
  omega

/-- Dropping leading whitespace is the identity on an all-digit string. -/
theorem dropWhile_wsp_digits {l : Str} (h : digitsOnly l) :
    l.dropWhile wsp = l := by
  cases l with
  | nil => rfl
  | cons c t =>
    rw [List.dropWhile_cons, if_neg]
    simp [digit_not_wsp (h c (List.mem_cons_self c t))]

/-- Trimming is the identity on an all-digit string. -/
theorem trimStr_digits {l : Str} (h : digitsOnly l) : trimStr l = l := by
  rw [trimStr, dropWhile_wsp_digits h,
    dropWhile_wsp_digits (fun c hc => h c (List.mem_reverse.mp hc)),
    List.reverse_reverse]

/-- Case folding is the identity on an all-digit string. -/
theorem lowerStr_digits {l : Str} (h : digitsOnly l) : lowerStr l = l := by
  induction l with
  | nil => rfl
  | cons c t ih =>
    rw [lowerStr, List.map_cons, digit_charLower (h c (List.mem_cons_self c t))]
    rw [show List.map charLower t = t from ih (fun c hc => h c (List.mem_cons_of_mem _ hc))]

/-- A string whose first character is not a digit is no infix of an
all-digit string. -/
theorem not_infix_digits {l : Str} (h : digitsOnly l) (p : Str) (c : Char)
    (hc : c ∈ p) (hcd : isDig c = false) : decide (p <:+: l) = false := by
  simp only [decide_eq_false_iff_not]
  intro hinf
  exact absurd (h c (hinf.subset hc)) (by simp [hcd])

/-- No vague-quantity term occurs in an all-digit string. -/
theorem hasVagueTerm_digits {l : Str} (h : digitsOnly l) :
    hasVagueTerm l = false := by
  rw [hasVagueTerm, List.any_eq_false]
  intro t ht
  rw [Bool.not_eq_true]
  simp only [nonScalableTerms, List.mem_cons, List.not_mem_nil, or_false] at ht
  rcases ht with rfl | rfl | rfl | rfl | rfl
  · exact not_infix_digits h ("to taste".toList) 't' (by decide) (by decide)
  · exact not_infix_digits h ("pinch".toList) 'p' (by decide) (by decide)
  · exact not_infix_digits h ("dash".toList) 'd' (by decide) (by decide)
  · exact not_infix_digits h ("handful".toList) 'h' (by decide) (by decide)
  · exact not_infix_digits h ("splash".toList) 's' (by decide) (by decide)

/-- Taking leading digits of an all-digit string yields the whole
string. -/
theorem takeWhile_isDig_digits {l : Str} (h : digitsOnly l) :
    l.takeWhile isDig = l := List.takeWhile_eq_self_iff.mpr h

/-- Dropping leading digits of an all-digit string yields the empty
string. -/
theorem dropWhile_isDig_digits {l : Str} (h : digitsOnly l) :
    l.dropWhile isDig = [] := List.dropWhile_eq_nil_iff.mpr h

/-- The mixed-number pattern cannot match anchored inside an all-digit
string: there is no whitespace after the digit run. -/
theorem tryMixedAt_digits {l : Str} (h : digitsOnly l) : tryMixedAt l = none := by
  cases l with
  | nil => rfl
  | cons c t =>
    rw [tryMixedAt]
    simp only [takeWhile_isDig_digits h, dropWhile_isDig_digits h]
    simp

/-- The mixed-number pattern matches nowhere in an all-digit string. -/
theorem matchMixed_digits {l : Str} (h : digitsOnly l) : matchMixed l = none := by
  induction l with
  | nil => rfl
  | cons c t ih =>
    rw [matchMixed, tryMixedAt_digits h]
    exact ih (fun x hx => h x (List.mem_cons_of_mem _ hx))

/-- The simple-fraction pattern cannot match anchored inside an all-digit
string: there is no slash after the digit run. -/
theorem tryFracAt_digits {l : Str} (h : digitsOnly l) : tryFracAt l = none := by
  cases l with
  | nil => rfl
  | cons c t =>
    rw [tryFracAt]
    simp only [takeWhile_isDig_digits h, dropWhile_isDig_digits h]
    simp

/-- The simple-fraction pattern matches nowhere in an all-digit string. -/
theorem matchFraction_digits {l : Str} (h : digitsOnly l) :
    matchFraction l = none := by
  induction l with
  | nil => rfl
  | cons c t ih =>
    rw [matchFraction, tryFracAt_digits h]
    exact ih (fun x hx => h x (List.mem_cons_of_mem _ hx))

/-- The decimal pattern captures a non-empty all-digit string whole, with
no fractional digits. -/
theorem matchNumber_digits {l : Str} (h : digitsOnly l) (hne : l ≠ []) :
    matchNumber l = some (l, []) := by
  cases l with
  | nil => exact absurd rfl hne
  | cons c t =>
    rw [matchNumber]
    rw [show tryNumAt (c :: t) = some (c :: t, []) from by
      rw [tryNumAt]
      simp only [takeWhile_isDig_digits h, dropWhile_isDig_digits h]
      simp]

/-- The character of a single decimal digit is a digit character. -/
theorem digitChar_isDig {m : ℕ} (hm : m < 10) :
    isDig (Char.ofNat (48 + m)) = true := by
  interval_cases m <;> decide

/-- The code point of a single decimal digit character. -/
theorem digitChar_toNat {m : ℕ} (hm : m < 10) :
    (Char.ofNat (48 + m)).toNat = 48 + m := by
  interval_cases m <;> decide

/-- Every character produced by the decimal renderer is a digit. -/
theorem natToDigitsAux_digits (fuel : ℕ) :
    ∀ n, digitsOnly (natToDigitsAux fuel n) := by
  induction fuel with
  | zero => intro n c hc; simp [natToDigitsAux] at hc
  | succ fuel ih =>
    intro n c hc
    rw [natToDigitsAux] at hc
    by_cases hn : n < 10
    · rw [if_pos hn] at hc
      simp only [List.mem_singleton] at hc
      subst hc
      exact digitChar_isDig hn
    · rw [if_neg hn] at hc
      rcases List.mem_append.mp hc with hc1 | hc2
      · exact ih (n / 10) c hc1
      · simp only [List.mem_singleton] at hc2
        subst hc2
        exact digitChar_isDig (Nat.mod_lt n (by norm_num))

/-- The decimal renderer never returns the empty string when given
fuel. -/
theorem natToDigitsAux_ne_nil (fuel n : ℕ) :
    natToDigitsAux (fuel + 1) n ≠ [] := by
  rw [natToDigitsAux]
  by_cases hn : n < 10
  · rw [if_pos hn]; simp
  · rw [if_neg hn]; simp

/-- Folding one more digit onto a parsed prefix. -/
theorem parseIntDigits_append_one (a : Str) (c : Char) :
    parseIntDigits (a ++ [c]) = 10 * parseIntDigits a + (c.toNat - 48) := by
  rw [parseIntDigits, parseIntDigits, List.foldl_append, List.foldl]
  rfl

/-- With sufficient fuel, parsing the rendered digits of `n` recovers
`n`. -/
theorem natToDigitsAux_parse (fuel : ℕ) :
    ∀ n, n < 10 ^ fuel → parseIntDigits (natToDigitsAux fuel n) = n := by
  induction fuel with
  | zero =>
    intro n hn
    interval_cases n
    rfl
  | succ fuel ih =>
    intro n hn
    rw [natToDigitsAux]
    by_cases h10 : n < 10
    · rw [if_pos h10]
      rw [show parseIntDigits [Char.ofNat (48 + n)] =
          (Char.ofNat (48 + n)).toNat - 48 from by
        rw [parseIntDigits, List.foldl, List.foldl]
        omega]
      rw [digitChar_toNat h10]
      omega
    · rw [if_neg h10]
      rw [parseIntDigits_append_one]
      rw [ih (n / 10) (by
        rw [Nat.div_lt_iff_lt_mul (by norm_num : 0 < 10)]
        calc n < 10 ^ (fuel + 1) := hn
          _ = 10 ^ fuel * 10 := by ring)]
      rw [digitChar_toNat (Nat.mod_lt n (by norm_num))]
      omega

/-- Parsing the decimal rendering of `n` recovers `n`. -/
theorem parseIntDigits_natToDigits (n : ℕ) :
    parseIntDigits (natToDigits n) = n := by
  rw [natToDigits]
  exact natToDigitsAux_parse (n + 1) n
    (lt_of_lt_of_le (Nat.lt_pow_self (by norm_num) n)
      (Nat.pow_le_pow_right (by norm_num) (Nat.le_succ n)))

/-- The decimal rendering consists of digits only. -/
theorem natToDigits_digits (n : ℕ) : digitsOnly (natToDigits n) :=
  natToDigitsAux_digits (n + 1) n

/-- The decimal rendering is never empty. -/
theorem natToDigits_ne_nil (n : ℕ) : natToDigits n ≠ [] :=
  natToDigitsAux_ne_nil n n


/-- Parsing the decimal rendering of any natural number takes the decimal
path and yields the double rounding of its exact value. -/
theorem parseQuantity_natToDigits (n : ℕ) :
    parseQuantity (natToDigits n) = some (JSNum.num (roundDouble (n : ℚ))) := by
  have hd := natToDigits_digits n
  have htr : lowerStr (trimStr (natToDigits n)) = natToDigits n := by
    rw [trimStr_digits hd, lowerStr_digits hd]
  rw [parseQuantity_dec (natToDigits n) []
    (by rw [htr]; exact hasVagueTerm_digits hd)
    (by rw [htr]; exact matchMixed_digits hd)
    (by rw [htr]; exact matchFraction_digits hd)
    (by rw [htr]; exact matchNumber_digits hd (natToDigits_ne_nil n))]
  rw [parseFloatD_nil, parseIntDigits_natToDigits]

/-- Whenever `parseQuantity` produces a finite number, that number is
non-negative: every numeric path builds it from natural-number captures by
addition and division. -/
theorem parseQuantity_num_nonneg (s : Str) (q : ℚ)
    (h : parseQuantity s = some (JSNum.num q)) : 0 ≤ q := by
  rw [parseQuantity] at h
  by_cases hv : hasVagueTerm (lowerStr (trimStr s)) = true
  · rw [if_pos hv] at h
    cases h
  · rw [if_neg hv] at h
    rcases hm : matchMixed (lowerStr (trimStr s)) with _ | ⟨w, n, d⟩
    · rw [hm] at h
      rcases hf : matchFraction (lowerStr (trimStr s)) with _ | ⟨n, d⟩
      · rw [hf] at h
        rcases hn : matchNumber (lowerStr (trimStr s)) with _ | ⟨ip, fp⟩
        · rw [hn] at h
          cases h
        · rw [hn] at h
          obtain rfl : parseFloatD ip fp = q := by simpa using h
          rw [parseFloatD]
          exact roundDouble_nonneg _ (by positivity)
      · rw [hf] at h
        simp only [jsDivNat] at h
        by_cases hd : d = 0
        · rw [if_pos hd] at h
          by_cases hn0 : n = 0
          · rw [if_pos hn0] at h
            exact absurd h (by simp)
          · rw [if_neg hn0] at h
            exact absurd h (by simp)
        · rw [if_neg hd] at h
          obtain rfl : (n : ℚ) / (d : ℚ) = q := by simpa using h
          positivity
    · rw [hm] at h
      simp only [jsDivNat] at h
      by_cases hd : d = 0
      · rw [if_pos hd] at h
        by_cases hn0 : n = 0
        · rw [if_pos hn0] at h
          exact absurd h (by simp [jsAddNat])
        · rw [if_neg hn0] at h
          exact absurd h (by simp [jsAddNat])
      · rw [if_neg hd] at h
        rw [jsAddNat] at h
        obtain rfl : (w : ℚ) + (n : ℚ) / (d : ℚ) = q := by simpa using h
        positivity

/-! Claim theorems. -/

/-- C1: the claim states `toFraction` renders `0.25, 0.5, 0.75, 1.25` as
`"1/4", "1/2", "3/4", "1 1/4"`.  The code disagrees: for each of these
values the minimal candidate difference is `0 < 0.05`, so the rounding
branch fires and returns a whole number.  This theorem evaluates the code
at the claimed inputs: it renders them as `"1", "1", "1", "2"`. -/
theorem claims_C1 :
    toFraction (1/4) = "1".toList ∧ toFraction (1/2) = "1".toList ∧
    toFraction (3/4) = "1".toList ∧ toFraction (5/4) = "2".toList :=
  ⟨toFraction_quarter, toFraction_half, toFraction_threeQuarters,
    toFraction_fiveQuarters⟩

/-- C2: the claim's rounding rule matches the code, but its examples do
not: at `2.96` and `0.98` the nearest candidate is `3/4` at distance
`0.21` / `0.23`, which is not below the tolerance, so the code renders
`"2 3/4"` and `"3/4"`, not the claimed (and test-asserted) `"3"` and
`"1"`.  This theorem evaluates the code at the claimed inputs. -/
theorem claims_C2 :
    toFraction (296/100) = "2 3/4".toList ∧ toFraction (98/100) = "3/4".toList :=
  ⟨toFraction_twoNinetySix, toFraction_ninetyEight⟩

/-- C3: for every configured vague-quantity term, any input whose
lower-cased trimmed form contains the term parses as non-scalable, and any
ingredient whose quantity contains the term is returned unchanged by
`scaleIngredient` for all serving counts. -/
theorem claims_C3 : ∀ p ∈ nonScalableTerms,
    (∀ s : Str, p <:+: lowerStr (trimStr s) → parseQuantity s = none) ∧
    (∀ (ing : Ingredient) (fromS toS : ℚ), p <:+: ing.quantity →
      scaleIngredient ing fromS toS = ing) := by
  intro p hp
  refine ⟨fun s hinf => parseQuantity_none_of_term hp hinf, ?_⟩
  intro ing fromS toS hinf
  exact scaleIngredient_none
    (parseQuantity_none_of_term hp (term_infix_lower_trim hp hinf)) fromS toS

/-- Witness for C3 at the term `"to taste"` and an ingredient scaled from
2 to 6 servings. -/
theorem claims_C3_witness :
    parseQuantity ("to taste".toList) = none ∧
    scaleIngredient ⟨"to taste".toList, "salt".toList, none⟩ 2 6 =
      ⟨"to taste".toList, "salt".toList, none⟩ := by
  constructor
  · exact (claims_C3 ("to taste".toList) (by decide)).1 ("to taste".toList)
      (by decide)
  · exact (claims_C3 ("to taste".toList) (by decide)).2
      ⟨"to taste".toList, "salt".toList, none⟩ 2 6 (by decide)

/-- C4 counterexample: the input `"1/0"` takes the simple-fraction path
and divides by zero, so `parseQuantity` returns the JavaScript value
`Infinity` — a number that is not finite, contradicting the claim that
every numeric result is finite. -/
theorem claims_C4_counterexample :
    parseQuantity ("1/0".toList) = some JSNum.inf := by decide

/-- C4 (amended): `parseQuantity` is total — modelled as a function it
returns a definite `Option` result for every input — and every finite
numeric result is non-negative; a zero denominator, however, yields the
non-finite `Infinity` or `NaN` rather than a finite number. -/
theorem claims_C4 : ∀ (s : Str) (q : ℚ),
    parseQuantity s = some (JSNum.num q) → 0 ≤ q :=
  parseQuantity_num_nonneg

/-- Witness for C4 at the input `"1/2"`, whose finite result `1/2` is
non-negative. -/
theorem claims_C4_witness : (0 : ℚ) ≤ 1/2 :=
  claims_C4 ("1/2".toList) (1/2) parseQuantity_oneHalf

/-- C5: the claim states scaling `2 → 4 → 2` returns the original
rendered quantity for fraction-representable values.  The code disagrees
on `"1/2 cup"`: scaling up renders `"1 cup"` (since `toFraction(1) = "1"`)
and scaling back down renders `"1 cup"` again (since the rounding branch
misfires on `0.5`), which differs from the original. -/
theorem claims_C5 :
    scaleIngredient
        (scaleIngredient ⟨"1/2 cup".toList, "sugar".toList, none⟩ 2 4) 4 2 =
      ⟨"1 cup".toList, "sugar".toList, none⟩ ∧
    ("1 cup".toList : Str) ≠ "1/2 cup".toList := by
  constructor
  · rw [scale_halfCup_2_4, scale_oneCup_4_2]
  · decide

/-- C6: the claim states scaling from `n` to `n` servings preserves the
quantity up to fraction-rounding tolerance.  The code disagrees on
`"1/2 cup"` with `n = 2`: the re-rendered quantity is `"1 cup"`, whose
numeric value `1` differs from the original `1/2` by `1/2`, far beyond any
rounding tolerance of the candidate set. -/
theorem claims_C6 :
    scaleIngredient ⟨"1/2 cup".toList, "sugar".toList, none⟩ 2 2 =
      ⟨"1 cup".toList, "sugar".toList, none⟩ ∧
    parseQuantity ("1 cup".toList) = some (JSNum.num 1) ∧
    parseQuantity ("1/2 cup".toList) = some (JSNum.num (1/2)) ∧
    |(1 : ℚ) - 1/2| = 1/2 := by
  refine ⟨scale_halfCup_2_2, parseQuantity_oneCup, parseQuantity_halfCup, ?_⟩
  rw [abs_of_nonneg] <;> norm_num

/-- C7: `parseQuantity` parses the documented numeric shapes exactly:
`"1/2" ↦ 0.5`, `"1 1/2" ↦ 1.5`, `"2 1/4" ↦ 2.25`, doubled internal
whitespace still parses the mixed number, and a trailing unit word does
not interfere (`"2 cups" ↦ 2`). -/
theorem claims_C7 :
    parseQuantity ("1/2".toList) = some (JSNum.num (1/2)) ∧
    parseQuantity ("1 1/2".toList) = some (JSNum.num (3/2)) ∧
    parseQuantity ("2 1/4".toList) = some (JSNum.num (9/4)) ∧
    parseQuantity ("1  1/2".toList) = some (JSNum.num (3/2)) ∧
    parseQuantity ("2 cups".toList) = some (JSNum.num 2) :=
  ⟨parseQuantity_oneHalf, parseQuantity_oneAndHalf, parseQuantity_twoAndQuarter,
    parseQuantity_oneAndHalfWide, parseQuantity_twoCups⟩

/-- C8: `scaleRecipeServings` sets the servings field to the target, maps
`scaleIngredient` with the recipe's own servings as implicit source over
the ingredients, and leaves every other field unchanged. -/
theorem claims_C8 : ∀ (r : Recipe) (n : ℚ),
    (scaleRecipeServings r n).servings = n ∧
    (scaleRecipeServings r n).ingredients =
      r.ingredients.map (fun i => scaleIngredient i r.servings n) ∧
    (scaleRecipeServings r n).name = r.name ∧
    (scaleRecipeServings r n).prepTime = r.prepTime ∧
    (scaleRecipeServings r n).cookTime = r.cookTime ∧
    (scaleRecipeServings r n).instructions = r.instructions ∧
    (scaleRecipeServings r n).nutrition = r.nutrition ∧
    (scaleRecipeServings r n).source = r.source :=
  fun _ _ => ⟨rfl, rfl, rfl, rfl, rfl, rfl, rfl, rfl⟩

/-- C9 counterexample: the decimal string of `2 ^ 53 + 1` does not parse
to its own value: `parseFloat` rounds it to the nearest double, which is
`2 ^ 53` by ties-to-even, so the claimed exactness for all `n ≥ 0`
fails. -/
theorem claims_C9_counterexample :
    parseQuantity (natToDigits 9007199254740993) =
      some (JSNum.num 9007199254740992) ∧
    parseQuantity (natToDigits 9007199254740993) ≠
      some (JSNum.num ((9007199254740993 : ℕ) : ℚ)) := by
  have heval : parseQuantity (natToDigits 9007199254740993) =
      some (JSNum.num 9007199254740992) := by
    rw [parseQuantity_natToDigits]
    rw [show (((9007199254740993 : ℕ) : ℚ)) = (9007199254740993 : ℚ) from by
      push_cast
      ring]
    rw [roundDouble_tieEven]
  refine ⟨heval, ?_⟩
  rw [heval]
  simp only [ne_eq, Option.some.injEq, JSNum.num.injEq]
  push_cast
  norm_num

/-- C9 (amended): for every natural number `n ≤ 2 ^ 53` — the range on
which doubles represent integers exactly — parsing the decimal rendering
of `n` yields exactly `n`. -/
theorem claims_C9 : ∀ n : ℕ, n ≤ 2 ^ 53 →
    parseQuantity (natToDigits n) = some (JSNum.num n) := by
  intro n hn
  rw [parseQuantity_natToDigits, roundDouble_natCast_le hn]

/-- Witness for C9 at `n = 5`. -/
theorem claims_C9_witness :
    parseQuantity (natToDigits 5) = some (JSNum.num ((5 : ℕ) : ℚ)) :=
  claims_C9 5 (by norm_num)

/-- C10: every non-negative value with zero floor whose fractional part
lies in `[0.05, 0.125]` renders as the empty string, and consequently
scaling `"1 cup"` from 10 to 1 servings yields the quantity `" cup"`. -/
theorem claims_C10 :
    (∀ x : ℚ, 0 ≤ x → ⌊x⌋ = 0 → 1/20 ≤ x → x ≤ 1/8 → toFraction x = []) ∧
    scaleIngredient ⟨"1 cup".toList, "rice".toList, none⟩ 10 1 =
      ⟨" cup".toList, "rice".toList, none⟩ :=
  ⟨toFraction_gap, scale_oneCup_10_1⟩

/-- Witness for C10 at the value `0.1`. -/
theorem claims_C10_witness :
    toFraction (1/10) = [] ∧
    scaleIngredient ⟨"1 cup".toList, "rice".toList, none⟩ 10 1 =
      ⟨" cup".toList, "rice".toList, none⟩ :=
  ⟨claims_C10.1 (1/10) (by norm_num) (by norm_num) (by norm_num) (by norm_num),
    claims_C10.2⟩
